import Mathlib

/-!
Shallow embedding of the infrakit flavor combo plugin (flavorCombo with
cloneSpec and mergeSpecs) and of the flavor RPC plugin server (Flavor,
PluginServer, PluginServerWithTypes, getPlugin and the four handlers).

Conventions of the embedding:
- A Go json.RawMessage is an opaque payload, modelled as String.
- A Go map from string to string is modelled as the list of writes
  performed on it; lookup returns the value written last for a key,
  matching Go map assignment semantics.
- A Go function returning a pair of a value and an error is modelled as
  returning both components; a nil-interface dereference, which aborts
  the Go process at runtime, is modelled by the value none of an Option
  wrapped around the whole result.
- json.Unmarshal into the combo Spec is external to this repository and
  is passed in as a decode parameter.
-/

namespace Infrakit

/-- Opaque JSON payload (Go json.RawMessage). -/
abbrev RawMessage := String

/-- Opaque allocation descriptor (Go types.AllocationMethod), passed through
unmodified by the composition. -/
abbrev AllocationMethod := String

/-- Go instance.LogicalID. -/
abbrev LogicalID := String

/-- Opaque attachment value (Go instance.Attachment). -/
abbrev Attachment := String

/-- A Go map from string to string, as the ordered list of writes performed
on it. -/
abbrev Tags := List (String × String)

/-- Go map read: the value written last for the key, if any. -/
def tagsGet (t : Tags) (k : String) : Option String :=
  t.foldl (fun acc kv => if kv.1 = k then some kv.2 else acc) none

/-- Go map write: m[k] = v overwrites any earlier binding of k. -/
def tagsInsert (t : Tags) (k v : String) : Tags :=
  t ++ [(k, v)]

/-- Go instance.Spec: the provisioning template handed to flavor plugins. -/
structure InstanceSpec where
  Properties : Option RawMessage
  Tags : Tags
  Init : String
  LogicalID : Option LogicalID
  Attachments : List Attachment
deriving DecidableEq

/-- Go instance.Description: read-only view of a provisioned instance. -/
structure Description where
  ID : String
  LogicalID : Option LogicalID
  Tags : Tags
deriving DecidableEq

/-- Go flavor.Health enumeration. -/
inductive Health where
  | Unknown : Health
  | Healthy : Health
  | Unhealthy : Health
deriving DecidableEq

/-- A flavor plugin (Go flavor.Plugin interface): each operation is a pure
function of its arguments.  An error return is modelled as Option String
(some message when the Go error is non-nil). -/
structure FlavorPlugin where
  Validate : RawMessage → AllocationMethod → Option String
  Prepare : RawMessage → InstanceSpec → AllocationMethod → Except String InstanceSpec
  Healthy : RawMessage → Description → Health × Option String
  Drain : RawMessage → Description → Option String

/-- Go group.FlavorPluginLookup: resolves a plugin name to a plugin value and
an error, mirroring the two Go return values.  The first component none
models a nil flavor.Plugin interface value. -/
abbrev FlavorPluginLookup := String → Option FlavorPlugin × Option String

/-- One member of a combo configuration (Go types.FlavorPlugin): a plugin
reference by name plus an opaque properties blob. -/
structure FlavorRef where
  Plugin : String
  Properties : RawMessage
deriving DecidableEq

/-- The combo plugin configuration (Go Spec in the combo package). -/
structure Spec where
  Flavors : List FlavorRef
deriving DecidableEq

/-- The combo flavor plugin (Go flavorCombo). -/
structure flavorCombo where
  flavorPlugins : FlavorPluginLookup

/-- flavorCombo.Validate: decode the properties into a Spec; the decode error
is the result. -/
def flavorCombo.Validate (decode : RawMessage → Except String Spec)
    (flavorProperties : RawMessage) : Option String :=
  match decode flavorProperties with
  | Except.error e => some e
  | Except.ok _ => none

/-- The member loop of flavorCombo.Healthy.  Returns the result of the loop
(none models the nil-plugin dereference aborting the process) together with
the list of members whose Healthy operation was actually invoked.  The Go
loop resolves the member plugin, propagates a resolution error as
(Unknown, err), and otherwise returns the member report as soon as it is an
error or a non-Healthy value. -/
def healthyLoop (f : flavorCombo) (inst : Description) :
    List FlavorRef → Option (Health × Option String) × List FlavorRef
  | [] => (some (Health.Healthy, none), [])
  | r :: rest =>
    match f.flavorPlugins r.Plugin with
    | (_, some e) => (some (Health.Unknown, some e), [])
    | (none, none) => (none, [])
    | (some plugin, none) =>
      let res := plugin.Healthy r.Properties inst
      if res.2 ≠ none ∨ res.1 ≠ Health.Healthy then
        (some res, [r])
      else
        ((healthyLoop f inst rest).1, r :: (healthyLoop f inst rest).2)

/-- flavorCombo.Healthy: decode failure yields (Unknown, err); otherwise run
the member loop.  The second component records which members were consulted. -/
def flavorCombo.Healthy (f : flavorCombo) (decode : RawMessage → Except String Spec)
    (flavorProperties : RawMessage) (inst : Description) :
    Option (Health × Option String) × List FlavorRef :=
  match decode flavorProperties with
  | Except.error e => (some (Health.Unknown, some e), [])
  | Except.ok s => healthyLoop f inst s.Flavors

/-- The member loop of flavorCombo.Drain, threading the errs accumulator.
For each member the Go code resolves the plugin, appends a resolution error
to errs, and then calls plugin.Drain unconditionally; when the resolved
plugin is nil that call dereferences a nil interface, modelled as none.
The second component records which members had Drain invoked. -/
def drainLoop (f : flavorCombo) (inst : Description) :
    List FlavorRef → List String → Option (List String) × List FlavorRef
  | [], errs => (some errs, [])
  | r :: rest, errs =>
    let errs1 := match (f.flavorPlugins r.Plugin).2 with
      | some e => errs ++ [e]
      | none => errs
    match (f.flavorPlugins r.Plugin).1 with
    | none => (none, [])
    | some plugin =>
      let errs2 := match plugin.Drain r.Properties inst with
        | some e => errs1 ++ [e]
        | none => errs1
      ((drainLoop f inst rest errs2).1, r :: (drainLoop f inst rest errs2).2)

/-- flavorCombo.Drain: decode failure is returned directly; otherwise run all
members collecting error strings, and return nil when none were collected,
else a single error joining all messages with a comma and space. -/
def flavorCombo.Drain (f : flavorCombo) (decode : RawMessage → Except String Spec)
    (flavorProperties : RawMessage) (inst : Description) :
    Option (Option String) × List FlavorRef :=
  match decode flavorProperties with
  | Except.error e => (some (some e), [])
  | Except.ok s =>
    match drainLoop f inst s.Flavors [] with
    | (none, invoked) => (none, invoked)
    | (some errs, invoked) =>
      if errs = [] then (some none, invoked)
      else (some (some (String.intercalate ", " errs)), invoked)

/-- cloneSpec: rebuilds the tags map entry by entry, copies the logical id by
value, and rebuilds the attachments list element by element. -/
def cloneSpec (spec : InstanceSpec) : InstanceSpec :=
  { Properties := spec.Properties
    Tags := spec.Tags.foldl (fun acc kv => tagsInsert acc kv.1 kv.2) []
    Init := spec.Init
    LogicalID := match spec.LogicalID with
      | none => none
      | some idCopy => some idCopy
    Attachments := spec.Attachments.foldl (fun acc v => acc ++ [v]) [] }

/-- The init-field update of one mergeSpecs iteration: a non-empty member
init is appended, preceded by a newline when the accumulator already has
content; an empty member init changes nothing. -/
def mergeInit (acc memberInit : String) : String :=
  if memberInit ≠ "" then
    (if acc ≠ "" then acc ++ "\n" else acc) ++ memberInit
  else acc

/-- One iteration of the mergeSpecs fold: overlay the member tags onto the
accumulator, update init, and append the member attachments. -/
def mergeStep (result spec : InstanceSpec) : InstanceSpec :=
  { result with
    Tags := spec.Tags.foldl (fun acc kv => tagsInsert acc kv.1 kv.2) result.Tags
    Init := mergeInit result.Init spec.Init
    Attachments := spec.Attachments.foldl (fun acc v => acc ++ [v]) result.Attachments }

/-- mergeSpecs: fold the member outputs, in order, onto a clone of the
initial spec.  The Go function also returns an error that is always nil. -/
def mergeSpecs (initial : InstanceSpec) (specs : List InstanceSpec) : InstanceSpec :=
  specs.foldl mergeStep (cloneSpec initial)

/-- The member loop of flavorCombo.Prepare, threading the collected specs.
Each member receives a clone of the original instance spec; a resolution
error or a member Prepare error stops the loop with that error; a nil
resolved plugin with a nil error would dereference nil (modelled none).
The second component records the spec values actually handed to member
Prepare calls. -/
def prepareLoop (f : flavorCombo) (alloc : AllocationMethod) (inst : InstanceSpec) :
    List FlavorRef → List InstanceSpec →
    Option (Except String (List InstanceSpec)) × List InstanceSpec
  | [], specs => (some (Except.ok specs), [])
  | r :: rest, specs =>
    match f.flavorPlugins r.Plugin with
    | (_, some e) => (some (Except.error e), [])
    | (none, none) => (none, [])
    | (some plugin, none) =>
      match plugin.Prepare r.Properties (cloneSpec inst) alloc with
      | Except.error e => (some (Except.error e), [cloneSpec inst])
      | Except.ok flavorOutput =>
        ((prepareLoop f alloc inst rest (specs ++ [flavorOutput])).1,
          cloneSpec inst :: (prepareLoop f alloc inst rest (specs ++ [flavorOutput])).2)

/-- flavorCombo.Prepare: decode failure returns the original spec with the
error; a member failure returns the original spec with that error; success
returns the merge of all member outputs onto the original spec. -/
def flavorCombo.Prepare (f : flavorCombo) (decode : RawMessage → Except String Spec)
    (flavorProperties : RawMessage) (inst : InstanceSpec)
    (alloc : AllocationMethod) : Option (InstanceSpec × Option String) :=
  match decode flavorProperties with
  | Except.error e => some (inst, some e)
  | Except.ok combo =>
    match (prepareLoop f alloc inst combo.Flavors []).1 with
    | none => none
    | some (Except.error e) => some (inst, some e)
    | some (Except.ok specs) => some (mergeSpecs inst specs, none)

/-- The RPC server wrapper (Go Flavor struct): either a single default
plugin, or a registry of typed plugins (a Go map, nil modelled as the empty
list). -/
structure Flavor where
  plugin : Option FlavorPlugin
  typedPlugins : List (String × FlavorPlugin)

/-- PluginServer: a server around a single default plugin (nil registry). -/
def PluginServer (p : FlavorPlugin) : Flavor :=
  { plugin := some p, typedPlugins := [] }

/-- PluginServerWithTypes: a server around a registry of typed plugins (nil
default plugin). -/
def PluginServerWithTypes (typed : List (String × FlavorPlugin)) : Flavor :=
  { plugin := none, typedPlugins := typed }

/-- Go map lookup in the typed registry (keys are unique in a Go map, so the
first match is the binding). -/
def lookupTyped : List (String × FlavorPlugin) → String → Option FlavorPlugin
  | [], _ => none
  | kp :: rest, t => if kp.1 = t then some kp.2 else lookupTyped rest t

/-- Flavor.getPlugin: the empty type selects the default plugin; otherwise
the registry is consulted and a miss yields nil. -/
def Flavor.getPlugin (p : Flavor) (flavorType : String) : Option FlavorPlugin :=
  if flavorType = "" then p.plugin
  else
    match lookupTyped p.typedPlugins flavorType with
    | some c => some c
    | none => none

/-- Go ValidateRequest. -/
structure ValidateRequest where
  Typ : String   -- the Go field Type (Type is a Lean keyword)
  Properties : Option RawMessage
  Allocation : AllocationMethod

/-- Go ValidateResponse. -/
structure ValidateResponse where
  Typ : String   -- the Go field Type (Type is a Lean keyword)
  OK : Bool
deriving DecidableEq

/-- Go PrepareRequest. -/
structure PrepareRequest where
  Typ : String   -- the Go field Type (Type is a Lean keyword)
  Properties : Option RawMessage
  Spec : InstanceSpec
  Allocation : AllocationMethod

/-- Go PrepareResponse. -/
structure PrepareResponse where
  Typ : String   -- the Go field Type (Type is a Lean keyword)
  Spec : InstanceSpec
deriving DecidableEq

/-- Go HealthyRequest. -/
structure HealthyRequest where
  Typ : String   -- the Go field Type (Type is a Lean keyword)
  Properties : Option RawMessage
  Instance : Description

/-- Go HealthyResponse. -/
structure HealthyResponse where
  Typ : String   -- the Go field Type (Type is a Lean keyword)
  Health : Health
deriving DecidableEq

/-- Go DrainRequest. -/
structure DrainRequest where
  Typ : String   -- the Go field Type (Type is a Lean keyword)
  Properties : Option RawMessage
  Instance : Description

/-- Go DrainResponse. -/
structure DrainResponse where
  Typ : String   -- the Go field Type (Type is a Lean keyword)
  OK : Bool
deriving DecidableEq

/-- Flavor.Validate handler: substitutes the zero-value payload when the
request carries no Properties pointer, resolves the plugin, and delegates. -/
def Flavor.Validate (p : Flavor) (req : ValidateRequest) :
    Except String ValidateResponse :=
  let raw : RawMessage := match req.Properties with
    | some r => r
    | none => ""
  match p.getPlugin req.Typ with
  | none => Except.error ("no-plugin:" ++ req.Typ)
  | some c =>
    match c.Validate raw req.Allocation with
    | some e => Except.error e
    | none => Except.ok { Typ := req.Typ, OK := true }

/-- Flavor.Prepare handler: substitutes the zero-value payload when the
request carries no Properties pointer, resolves the plugin, and delegates. -/
def Flavor.Prepare (p : Flavor) (req : PrepareRequest) :
    Except String PrepareResponse :=
  let raw : RawMessage := match req.Properties with
    | some r => r
    | none => ""
  match p.getPlugin req.Typ with
  | none => Except.error ("no-plugin:" ++ req.Typ)
  | some c =>
    match c.Prepare raw req.Spec req.Allocation with
    | Except.error e => Except.error e
    | Except.ok spec => Except.ok { Typ := req.Typ, Spec := spec }

/-- Flavor.Healthy handler: resolves the plugin first; on success it
dereferences req.Properties unconditionally, so an absent Properties pointer
aborts the process (none). -/
def Flavor.Healthy (p : Flavor) (req : HealthyRequest) :
    Option (Except String HealthyResponse) :=
  match p.getPlugin req.Typ with
  | none => some (Except.error ("no-plugin:" ++ req.Typ))
  | some c =>
    match req.Properties with
    | none => none
    | some raw =>
      match c.Healthy raw req.Instance with
      | (_, some e) => some (Except.error e)
      | (health, none) => some (Except.ok { Typ := req.Typ, Health := health })

/-- Flavor.Drain handler: resolves the plugin first; on success it
dereferences req.Properties unconditionally, so an absent Properties pointer
aborts the process (none). -/
def Flavor.Drain (p : Flavor) (req : DrainRequest) :
    Option (Except String DrainResponse) :=
  match p.getPlugin req.Typ with
  | none => some (Except.error ("no-plugin:" ++ req.Typ))
  | some c =>
    match req.Properties with
    | none => none
    | some raw =>
      match c.Drain raw req.Instance with
      | some e => some (Except.error e)
      | none => some (Except.ok { Typ := req.Typ, OK := true })

/-! Helper definitions used to state the verified properties. -/

/-- Left-biased choice between two optional values. -/
def orElseOpt {α : Type} (a b : Option α) : Option α :=
  match a with
  | some v => some v
  | none => b

/-- The report a member yields in the Healthy loop when its plugin resolves
without error; none when resolution fails or yields a nil plugin. -/
def memberHealth (f : flavorCombo) (inst : Description) (r : FlavorRef) :
    Option (Health × Option String) :=
  match f.flavorPlugins r.Plugin with
  | (some p, none) => some (p.Healthy r.Properties inst)
  | _ => none

/-- The Drain error message a member with a resolved plugin produces, if any. -/
def memberDrainErr (f : flavorCombo) (inst : Description) (r : FlavorRef) :
    Option String :=
  match (f.flavorPlugins r.Plugin).1 with
  | some p => p.Drain r.Properties inst
  | none => none

/-- The spec a member Prepare call produces when the member resolves without
error and its Prepare succeeds on a clone of the original spec. -/
def memberOut (f : flavorCombo) (alloc : AllocationMethod) (inst : InstanceSpec)
    (r : FlavorRef) : Option InstanceSpec :=
  match f.flavorPlugins r.Plugin with
  | (some p, none) =>
    match p.Prepare r.Properties (cloneSpec inst) alloc with
    | Except.ok out => some out
    | Except.error _ => none
  | _ => none

/-- The value written for key k by the last spec in the list that defines k,
if any. -/
def lastDefined (k : String) : List InstanceSpec → Option String
  | [] => none
  | s :: rest => orElseOpt (lastDefined k rest) (tagsGet s.Tags k)

/-- Newline-joined concatenation of a list of strings. -/
def newlineJoin : List String → String
  | [] => ""
  | s :: rest =>
    match rest with
    | [] => s
    | _ :: _ => s ++ "\n" ++ newlineJoin rest

/-! Concrete fixtures for witnesses and counterexamples. -/

/-- A trivial concrete flavor plugin. -/
def pluginA : FlavorPlugin :=
  { Validate := fun _ _ => none
    Prepare := fun _ s _ => Except.ok s
    Healthy := fun _ _ => (Health.Healthy, none)
    Drain := fun _ _ => none }

/-- A plugin reporting Unhealthy. -/
def unhealthyPlugin : FlavorPlugin :=
  { pluginA with Healthy := fun _ _ => (Health.Unhealthy, none) }

/-- A plugin whose Drain fails with the given message. -/
def drainFailPlugin (msg : String) : FlavorPlugin :=
  { pluginA with Drain := fun _ _ => some msg }

/-- A plugin whose Prepare fails with the given message. -/
def prepareFailPlugin (msg : String) : FlavorPlugin :=
  { pluginA with Prepare := fun _ _ _ => Except.error msg }

/-- A concrete instance description. -/
def descA : Description := { ID := "inst-1", LogicalID := none, Tags := [] }

/-- A concrete instance spec. -/
def specA : InstanceSpec :=
  { Properties := none
    Tags := [("k", "v")]
    Init := "echo base"
    LogicalID := some "id-1"
    Attachments := ["att1"] }

/-- Concrete member references. -/
def refA : FlavorRef := { Plugin := "a", Properties := "pa" }

/-- Concrete member reference b. -/
def refB : FlavorRef := { Plugin := "b", Properties := "pb" }

/-- Concrete member reference c. -/
def refC : FlavorRef := { Plugin := "c", Properties := "pc" }

/-- A lookup where member b is unhealthy and every other name is healthy. -/
def lookupABC : FlavorPluginLookup := fun name =>
  if name = "b" then (some unhealthyPlugin, none) else (some pluginA, none)

/-- A lookup where b and c fail Drain with messages x and y. -/
def lookupDrain : FlavorPluginLookup := fun name =>
  if name = "b" then (some (drainFailPlugin "x"), none)
  else if name = "c" then (some (drainFailPlugin "y"), none)
  else (some pluginA, none)

/-- A lookup that resolves no name: it returns a nil plugin together with an
error, as the group plugin lookup does for an unknown plugin name. -/
def lookupMissing : FlavorPluginLookup := fun _ => (none, some "plugin not found")

/-- A lookup where member b fails to resolve and other names succeed. -/
def lookupBMissing : FlavorPluginLookup := fun name =>
  if name = "b" then (none, some "not found: b") else (some pluginA, none)

/-- A lookup where member b resolves but its Prepare fails. -/
def lookupBPrepFail : FlavorPluginLookup := fun name =>
  if name = "b" then (some (prepareFailPlugin "prep boom"), none)
  else (some pluginA, none)

/-- A decoder producing a fixed combo Spec for any payload. -/
def decodeTo (s : Spec) : RawMessage → Except String Spec := fun _ => Except.ok s

/-- A decoder that always fails with the given message. -/
def decodeFail (e : String) : RawMessage → Except String Spec :=
  fun _ => Except.error e

/-! Basic lemmas about the embedded operations. -/

/-- Folding single-element appends over a list appends the whole list. -/
theorem foldl_append_singleton {α : Type} (l acc : List α) :
    l.foldl (fun a x => a ++ [x]) acc = acc ++ l := by
  induction l generalizing acc with
  | nil => simp
  | cons x rest ih => simp [List.foldl_cons, ih]

/-- Copying a tags map entry by entry appends its write list. -/
theorem foldl_tagsInsert (l acc : Tags) :
    l.foldl (fun a kv => tagsInsert a kv.1 kv.2) acc = acc ++ l := by
  have h : (fun (a : Tags) (kv : String × String) => tagsInsert a kv.1 kv.2) =
      fun (a : Tags) (kv : String × String) => a ++ [kv] := by
    funext a kv
    simp [tagsInsert]
  rw [h]
  exact foldl_append_singleton l acc

/-- cloneSpec is a faithful copy: the clone is field-for-field equal to its
source, with the tags map, logical id and attachments rebuilt to the same
values. -/
theorem cloneSpec_eq (s : InstanceSpec) : cloneSpec s = s := by
  cases s with
  | mk P T I L A =>
    simp only [cloneSpec, foldl_tagsInsert, foldl_append_singleton, List.nil_append]
    cases L <;> rfl

/-- Folding the tags-lookup step starting from an arbitrary accumulator. -/
theorem tagsGet_foldl (b : Tags) (k : String) (acc : Option String) :
    b.foldl (fun a kv => if kv.1 = k then some kv.2 else a) acc =
      orElseOpt (tagsGet b k) acc := by
  induction b generalizing acc with
  | nil => simp [tagsGet, orElseOpt]
  | cons kv rest ih =>
    simp only [tagsGet, List.foldl_cons] at ih ⊢
    rw [ih, ih (if kv.1 = k then some kv.2 else none)]
    cases h : rest.foldl (fun a kv => if kv.1 = k then some kv.2 else a) none with
    | some v => simp [orElseOpt]
    | none =>
      simp only [orElseOpt]
      by_cases hk : kv.1 = k <;> simp [hk]

/-- A lookup over concatenated write lists prefers the later writes. -/
theorem tagsGet_append (a b : Tags) (k : String) :
    tagsGet (a ++ b) k = orElseOpt (tagsGet b k) (tagsGet a k) := by
  simp only [tagsGet, List.foldl_append]
  exact tagsGet_foldl b k _

/-- orElseOpt is associative. -/
theorem orElseOpt_assoc {α : Type} (a b c : Option α) :
    orElseOpt a (orElseOpt b c) = orElseOpt (orElseOpt a b) c := by
  cases a <;> simp [orElseOpt]

/-- One merge iteration appends the member tag writes to the accumulator. -/
theorem mergeStep_tags (r s : InstanceSpec) :
    (mergeStep r s).Tags = r.Tags ++ s.Tags := by
  simp [mergeStep, foldl_tagsInsert]

/-- One merge iteration updates init through mergeInit. -/
theorem mergeStep_init (r s : InstanceSpec) :
    (mergeStep r s).Init = mergeInit r.Init s.Init := rfl

/-- One merge iteration appends the member attachments. -/
theorem mergeStep_attachments (r s : InstanceSpec) :
    (mergeStep r s).Attachments = r.Attachments ++ s.Attachments := by
  simp [mergeStep, foldl_append_singleton]

/-- Tag lookup through the merge fold prefers the last spec defining the key
and falls back to the accumulator. -/
theorem tags_foldl_mergeStep (specs : List InstanceSpec) (r : InstanceSpec)
    (k : String) :
    tagsGet ((specs.foldl mergeStep r).Tags) k =
      orElseOpt (lastDefined k specs) (tagsGet r.Tags k) := by
  induction specs generalizing r with
  | nil => simp [lastDefined, orElseOpt]
  | cons s rest ih =>
    simp only [List.foldl_cons, lastDefined]
    rw [ih, mergeStep_tags, tagsGet_append, orElseOpt_assoc]

/-- The init field of the merge fold is the mergeInit fold of the inits. -/
theorem init_foldl_mergeStep (specs : List InstanceSpec) (r : InstanceSpec) :
    (specs.foldl mergeStep r).Init =
      (specs.map (fun s => s.Init)).foldl mergeInit r.Init := by
  induction specs generalizing r with
  | nil => rfl
  | cons s rest ih => simp only [List.foldl_cons, List.map_cons, ih, mergeStep_init]

/-- Unfolding newlineJoin on a list of at least two elements. -/
theorem newlineJoin_cons_cons (s x : String) (xs : List String) :
    newlineJoin (s :: x :: xs) = s ++ "\n" ++ newlineJoin (x :: xs) := rfl

/-- A string containing a newline separator is never empty. -/
theorem append_newline_ne_empty (a b : String) : a ++ "\n" ++ b ≠ "" := by
  intro h
  have h2 := congrArg String.length h
  simp [String.length_append] at h2
  have h3 : ("\n" : String).length = 1 := rfl
  omega

/-- Prepending an already newline-joined pair distributes over newlineJoin. -/
theorem newlineJoin_append_cons (a b : String) (l : List String) :
    newlineJoin ((a ++ "\n" ++ b) :: l) = a ++ "\n" ++ newlineJoin (b :: l) := by
  cases l with
  | nil => rfl
  | cons x xs => simp [newlineJoin_cons_cons, String.append_assoc]

/-- The mergeInit fold computes the newline join of the non-empty strings. -/
theorem foldl_mergeInit_join (l : List String) (acc : String) :
    l.foldl mergeInit acc =
      newlineJoin ((acc :: l).filter (fun s => s != "")) := by
  induction l generalizing acc with
  | nil =>
    by_cases h : acc = "" <;> simp [h, newlineJoin]
  | cons i rest ih =>
    by_cases hi : i = ""
    · subst hi
      have hm : mergeInit acc "" = acc := by simp [mergeInit]
      simp only [List.foldl_cons, hm, ih]
      congr 1
    · by_cases hacc : acc = ""
      · subst hacc
        have hm : mergeInit "" i = i := by
          simp [mergeInit, hi]
        simp only [List.foldl_cons, hm, ih]
        congr 1
      · have hm : mergeInit acc i = acc ++ "\n" ++ i := by
          simp [mergeInit, hi, hacc]
        have hp : ((acc ++ "\n" ++ i) != "") = true := by
          simp only [bne_iff_ne, ne_eq]
          exact append_newline_ne_empty acc i
        have hpa : (acc != "") = true := by simp [bne_iff_ne, hacc]
        have hpi : (i != "") = true := by simp [bne_iff_ne, hi]
        simp only [List.foldl_cons, hm, ih]
        rw [List.filter_cons, if_pos hp, List.filter_cons, if_pos hpa,
          List.filter_cons, if_pos hpi, newlineJoin_append_cons,
          newlineJoin_cons_cons]

/-- A prefix of members that resolve and report (Healthy, nil) is traversed
by the Healthy loop without stopping, each one being consulted. -/
theorem healthyLoop_pass_front (f : flavorCombo) (inst : Description)
    (pre rest : List FlavorRef)
    (h : ∀ x ∈ pre, memberHealth f inst x = some (Health.Healthy, none)) :
    healthyLoop f inst (pre ++ rest) =
      ((healthyLoop f inst rest).1, pre ++ (healthyLoop f inst rest).2) := by
  induction pre with
  | nil => simp
  | cons x xs ih =>
    have hx := h x (List.mem_cons_self x xs)
    have hxs : ∀ y ∈ xs, memberHealth f inst y = some (Health.Healthy, none) :=
      fun y hy => h y (List.mem_cons_of_mem x hy)
    rcases hlk : f.flavorPlugins x.Plugin with ⟨po, eo⟩
    cases eo with
    | some e => simp [memberHealth, hlk] at hx
    | none =>
      cases po with
      | none => simp [memberHealth, hlk] at hx
      | some p =>
        simp only [memberHealth, hlk, Option.some.injEq] at hx
        simp [healthyLoop, hlk, hx, ih hxs]

/-- When every member resolves and reports (Healthy, nil), the Healthy loop
reports Healthy after consulting every member in order. -/
theorem healthyLoop_all_pass (f : flavorCombo) (inst : Description)
    (l : List FlavorRef)
    (h : ∀ x ∈ l, memberHealth f inst x = some (Health.Healthy, none)) :
    healthyLoop f inst l = (some (Health.Healthy, none), l) := by
  have hp := healthyLoop_pass_front f inst l [] h
  simpa [healthyLoop] using hp

/-- A member that resolves and reports an error or a non-Healthy value stops
the Healthy loop at once with exactly that report. -/
theorem healthyLoop_stop (f : flavorCombo) (inst : Description) (r : FlavorRef)
    (rest : List FlavorRef) (p : FlavorPlugin) (h : Health) (e : Option String)
    (hlk : f.flavorPlugins r.Plugin = (some p, none))
    (hres : p.Healthy r.Properties inst = (h, e))
    (hcond : e ≠ none ∨ h ≠ Health.Healthy) :
    healthyLoop f inst (r :: rest) = (some (h, e), [r]) := by
  simp only [healthyLoop, hlk]
  rw [hres]
  simp only [if_pos hcond]

/-- Under resolution of every member, the Healthy loop reports (Healthy, nil)
exactly when every member reports (Healthy, nil). -/
theorem healthyLoop_healthy_iff (f : flavorCombo) (inst : Description)
    (l : List FlavorRef)
    (h : ∀ x ∈ l, (memberHealth f inst x).isSome) :
    (healthyLoop f inst l).1 = some (Health.Healthy, none) ↔
      ∀ x ∈ l, memberHealth f inst x = some (Health.Healthy, none) := by
  induction l with
  | nil => simp [healthyLoop]
  | cons r rest ih =>
    have hr := h r (List.mem_cons_self r rest)
    have hrest : ∀ y ∈ rest, (memberHealth f inst y).isSome :=
      fun y hy => h y (List.mem_cons_of_mem r hy)
    rcases hlk : f.flavorPlugins r.Plugin with ⟨po, eo⟩
    cases eo with
    | some e => simp [memberHealth, hlk] at hr
    | none =>
      cases po with
      | none => simp [memberHealth, hlk] at hr
      | some p =>
        rcases hres : p.Healthy r.Properties inst with ⟨hh, he⟩
        by_cases hcond : he ≠ none ∨ hh ≠ Health.Healthy
        · rw [healthyLoop_stop f inst r rest p hh he hlk hres hcond]
          constructor
          · intro hsome
            exfalso
            simp only [Option.some.injEq, Prod.mk.injEq] at hsome
            rcases hcond with hc | hc
            · exact hc hsome.2
            · exact hc hsome.1
          · intro hall
            exfalso
            have hrr := hall r (List.mem_cons_self r rest)
            simp only [memberHealth, hlk, hres, Option.some.injEq,
              Prod.mk.injEq] at hrr
            rcases hcond with hc | hc
            · exact hc hrr.2
            · exact hc hrr.1
        · push_neg at hcond
          obtain ⟨he0, hh0⟩ := hcond
          subst he0
          subst hh0
          have hstep : healthyLoop f inst (r :: rest) =
              ((healthyLoop f inst rest).1, r :: (healthyLoop f inst rest).2) := by
            simp [healthyLoop, hlk, hres]
          rw [hstep]
          simp only [List.mem_cons]
          constructor
          · intro hres2 x hx
            rcases hx with hx | hx
            · subst hx
              simp [memberHealth, hlk, hres]
            · exact (ih hrest).1 hres2 x hx
          · intro hall
            exact (ih hrest).2 (fun x hx => hall x (Or.inr hx))

/-- When every member resolves without error, the Drain loop invokes every
member in order and collects exactly the member Drain failures onto the
accumulator. -/
theorem drainLoop_resolved (f : flavorCombo) (inst : Description)
    (l : List FlavorRef) (errs : List String)
    (h : ∀ r ∈ l, ∃ p, f.flavorPlugins r.Plugin = (some p, none)) :
    drainLoop f inst l errs =
      (some (errs ++ l.filterMap (memberDrainErr f inst)), l) := by
  induction l generalizing errs with
  | nil => simp [drainLoop]
  | cons r rest ih =>
    obtain ⟨p, hp⟩ := h r (List.mem_cons_self r rest)
    have hrest : ∀ y ∈ rest, ∃ q, f.flavorPlugins y.Plugin = (some q, none) :=
      fun y hy => h y (List.mem_cons_of_mem r hy)
    cases hd : p.Drain r.Properties inst with
    | none =>
      simp [drainLoop, hp, hd, ih _ hrest, List.filterMap_cons,
        memberDrainErr]
    | some e =>
      simp [drainLoop, hp, hd, ih _ hrest, List.filterMap_cons,
        memberDrainErr]

/-- A prefix of members that resolve and whose Prepare calls succeed is
traversed by the Prepare loop, each member receiving a clone of the original
spec and contributing its output in order. -/
theorem prepareLoop_ok_front (f : flavorCombo) (alloc : AllocationMethod)
    (inst : InstanceSpec) (pre rest : List FlavorRef) (specs : List InstanceSpec)
    (h : ∀ r ∈ pre, (memberOut f alloc inst r).isSome) :
    prepareLoop f alloc inst (pre ++ rest) specs =
      ((prepareLoop f alloc inst rest
          (specs ++ pre.filterMap (memberOut f alloc inst))).1,
        pre.map (fun _ => cloneSpec inst) ++
          (prepareLoop f alloc inst rest
            (specs ++ pre.filterMap (memberOut f alloc inst))).2) := by
  induction pre generalizing specs with
  | nil => simp
  | cons r xs ih =>
    have hr := h r (List.mem_cons_self r xs)
    have hxs : ∀ y ∈ xs, (memberOut f alloc inst y).isSome :=
      fun y hy => h y (List.mem_cons_of_mem r hy)
    rcases hlk : f.flavorPlugins r.Plugin with ⟨po, eo⟩
    cases eo with
    | some e => simp [memberOut, hlk] at hr
    | none =>
      cases po with
      | none => simp [memberOut, hlk] at hr
      | some p =>
        cases hpr : p.Prepare r.Properties (cloneSpec inst) alloc with
        | error e => simp [memberOut, hlk, hpr] at hr
        | ok out =>
          simp only [List.cons_append, prepareLoop, hlk, hpr, List.append_eq]
          rw [ih (specs ++ [out]) hxs]
          simp [List.filterMap_cons, memberOut, hlk, hpr]

/-- Every spec handed to a member Prepare call is the clone of the original
spec: the trace is a constant list of clones. -/
theorem prepareLoop_trace_clones (f : flavorCombo) (alloc : AllocationMethod)
    (inst : InstanceSpec) (l : List FlavorRef) (specs : List InstanceSpec) :
    (prepareLoop f alloc inst l specs).2 =
      List.replicate (prepareLoop f alloc inst l specs).2.length
        (cloneSpec inst) := by
  induction l generalizing specs with
  | nil => simp [prepareLoop]
  | cons r rest ih =>
    rcases hlk : f.flavorPlugins r.Plugin with ⟨po, eo⟩
    cases eo with
    | some e => simp [prepareLoop, hlk]
    | none =>
      cases po with
      | none => simp [prepareLoop, hlk]
      | some p =>
        cases hpr : p.Prepare r.Properties (cloneSpec inst) alloc with
        | error e => simp [prepareLoop, hlk, hpr, List.replicate]
        | ok out =>
          simp only [prepareLoop, hlk, hpr]
          rw [List.length_cons, List.replicate_succ]
          exact congrArg (cloneSpec inst :: ·) (ih (specs ++ [out]))

/-! The verified properties. -/

/-- Claim C1, evidence of the code defect: on a composition whose single
member fails to resolve (the lookup returns a nil plugin and an error), the
Drain code records the error but then invokes Drain through the nil plugin
handle, aborting the whole call (modelled none) instead of skipping the
member and continuing with the rest. -/
theorem c1_drain_nil_dispatch :
    flavorCombo.Drain { flavorPlugins := lookupMissing }
      (decodeTo { Flavors := [refA] }) "payload" descA = (none, []) := rfl

/-- Claim C2: with properties that decode and members that all resolve, the
Healthy composition consults members strictly in listed order; the first
member reporting an error or a non-Healthy value determines the result,
returned at once with no later member consulted; and the composition reports
Healthy exactly when every member reports Healthy. -/
theorem c2_healthy_short_circuit (f : flavorCombo)
    (decode : RawMessage → Except String Spec) (props : RawMessage)
    (inst : Description) (s : Spec) (pre post : List FlavorRef) (r : FlavorRef)
    (p : FlavorPlugin) (h : Health) (e : Option String)
    (hdec : decode props = Except.ok s) :
    (s.Flavors = pre ++ r :: post →
      (∀ x ∈ pre, memberHealth f inst x = some (Health.Healthy, none)) →
      f.flavorPlugins r.Plugin = (some p, none) →
      p.Healthy r.Properties inst = (h, e) →
      (e ≠ none ∨ h ≠ Health.Healthy) →
      flavorCombo.Healthy f decode props inst = (some (h, e), pre ++ [r]))
    ∧ ((∀ x ∈ s.Flavors, memberHealth f inst x = some (Health.Healthy, none)) →
      flavorCombo.Healthy f decode props inst =
        (some (Health.Healthy, none), s.Flavors))
    ∧ ((∀ x ∈ s.Flavors, (memberHealth f inst x).isSome) →
      ((flavorCombo.Healthy f decode props inst).1 =
          some (Health.Healthy, none) ↔
        ∀ x ∈ s.Flavors, memberHealth f inst x = some (Health.Healthy, none))) := by
  refine ⟨?_, ?_, ?_⟩
  · intro hfl hpre hlk hres hcond
    simp only [flavorCombo.Healthy, hdec, hfl]
    rw [healthyLoop_pass_front f inst pre (r :: post) hpre,
      healthyLoop_stop f inst r post p h e hlk hres hcond]
  · intro hall
    simp only [flavorCombo.Healthy, hdec]
    exact healthyLoop_all_pass f inst s.Flavors hall
  · intro hsome
    simp only [flavorCombo.Healthy, hdec]
    exact healthyLoop_healthy_iff f inst s.Flavors hsome

/-- Concrete check of claim C2: members a (Healthy), b (Unhealthy) and c are
configured; the composition returns Unhealthy having consulted only a and b. -/
theorem c2_healthy_short_circuit_witness :
    flavorCombo.Healthy { flavorPlugins := lookupABC }
      (decodeTo { Flavors := [refA, refB, refC] }) "payload" descA =
      (some (Health.Unhealthy, none), [refA, refB]) := by
  have h := (c2_healthy_short_circuit { flavorPlugins := lookupABC }
    (decodeTo { Flavors := [refA, refB, refC] }) "payload" descA
    { Flavors := [refA, refB, refC] } [refA] [refC] refB unhealthyPlugin
    Health.Unhealthy none rfl).1
  exact h rfl (by decide) rfl rfl (Or.inr (by decide))

/-- Claim C3: every spec handed to a member Prepare call is a clone of the
original input spec, whatever the other members return, and the clone agrees
with the original field for field (tags copied key by key, logical id by
value, attachments element by element). -/
theorem c3_prepare_clone_isolation (f : flavorCombo) (alloc : AllocationMethod)
    (inst : InstanceSpec) (l : List FlavorRef) (specs : List InstanceSpec) :
    (prepareLoop f alloc inst l specs).2 =
      List.replicate (prepareLoop f alloc inst l specs).2.length (cloneSpec inst)
    ∧ cloneSpec inst = inst :=
  ⟨prepareLoop_trace_clones f alloc inst l specs, cloneSpec_eq inst⟩

/-- Counterexample to claim C4: with a single default plugin and no registry,
a non-empty type tag matching no registered name does NOT route to the
default plugin — resolution yields nil. -/
theorem c4_single_default_counterexample :
    (PluginServer pluginA).getPlugin "custom" = none ∧ "custom" ≠ "" :=
  ⟨rfl, by decide⟩

/-- Claim C4 as amended: with a single default plugin and no registry, only
the empty type tag resolves, to that default, and any non-empty tag fails
resolution; with a registry, the empty tag fails (no default configured), an
absent tag fails, and a registered tag resolves to its plugin. -/
theorem c4_get_plugin_routing (p : FlavorPlugin)
    (reg : List (String × FlavorPlugin)) (t : String) :
    ((PluginServer p).getPlugin "" = some p)
    ∧ (t ≠ "" → (PluginServer p).getPlugin t = none)
    ∧ ((PluginServerWithTypes reg).getPlugin "" = none)
    ∧ (t ≠ "" → lookupTyped reg t = none →
        (PluginServerWithTypes reg).getPlugin t = none)
    ∧ (t ≠ "" → ∀ c, lookupTyped reg t = some c →
        (PluginServerWithTypes reg).getPlugin t = some c) := by
  refine ⟨rfl, ?_, rfl, ?_, ?_⟩
  · intro ht
    simp [Flavor.getPlugin, PluginServer, lookupTyped, ht]
  · intro ht hl
    simp [Flavor.getPlugin, PluginServerWithTypes, ht, hl]
  · intro ht c hl
    simp [Flavor.getPlugin, PluginServerWithTypes, ht, hl]

/-- Concrete check of amended claim C4 at a default-only server and at a
one-entry registry. -/
theorem c4_get_plugin_routing_witness :
    (PluginServer pluginA).getPlugin "" = some pluginA
    ∧ (PluginServer pluginA).getPlugin "x" = none
    ∧ (PluginServerWithTypes [("t1", pluginA)]).getPlugin "" = none
    ∧ (PluginServerWithTypes [("t1", pluginA)]).getPlugin "x" = none
    ∧ (PluginServerWithTypes [("t1", pluginA)]).getPlugin "t1" = some pluginA :=
  ⟨(c4_get_plugin_routing pluginA [("t1", pluginA)] "x").1,
    (c4_get_plugin_routing pluginA [("t1", pluginA)] "x").2.1 (by decide),
    (c4_get_plugin_routing pluginA [("t1", pluginA)] "x").2.2.1,
    (c4_get_plugin_routing pluginA [("t1", pluginA)] "x").2.2.2.1 (by decide) rfl,
    (c4_get_plugin_routing pluginA [("t1", pluginA)] "t1").2.2.2.2 (by decide)
      pluginA rfl⟩

/-- Claim C5: when every member resolves, Drain is invoked on every member in
listed order regardless of earlier failures, and the call returns nil exactly
when no member Drain errored, otherwise one error joining every member
failure message with a comma and space, in encounter order. -/
theorem c5_drain_best_effort (f : flavorCombo)
    (decode : RawMessage → Except String Spec) (props : RawMessage)
    (inst : Description) (s : Spec)
    (hdec : decode props = Except.ok s)
    (hres : ∀ r ∈ s.Flavors, ∃ p, f.flavorPlugins r.Plugin = (some p, none)) :
    flavorCombo.Drain f decode props inst =
      (some (if s.Flavors.filterMap (memberDrainErr f inst) = [] then none
        else some (String.intercalate ", "
          (s.Flavors.filterMap (memberDrainErr f inst)))), s.Flavors) := by
  simp only [flavorCombo.Drain, hdec]
  rw [drainLoop_resolved f inst s.Flavors [] hres]
  simp only [List.nil_append]
  split <;> simp_all

/-- Concrete check of claim C5: members a (Drain succeeds), b (fails x) and
c (fails y); all three are invoked and the single error is x, y. -/
theorem c5_drain_best_effort_witness :
    flavorCombo.Drain { flavorPlugins := lookupDrain }
      (decodeTo { Flavors := [refA, refB, refC] }) "payload" descA =
      (some (some "x, y"), [refA, refB, refC]) := by
  have h := c5_drain_best_effort { flavorPlugins := lookupDrain }
    (decodeTo { Flavors := [refA, refB, refC] }) "payload" descA
    { Flavors := [refA, refB, refC] } rfl ?_
  · rw [h]
    rfl
  · intro r hr
    fin_cases hr
    · exact ⟨pluginA, rfl⟩
    · exact ⟨drainFailPlugin "x", rfl⟩
    · exact ⟨drainFailPlugin "y", rfl⟩

/-- Claim C6: in the Prepare merge fold, tag maps are overlaid in member
order; for every key the merged result holds the value of the last member
defining that key, falling back to the original spec only when no member
defines it. -/
theorem c6_merge_tags_last_writer_wins (initial : InstanceSpec)
    (specs : List InstanceSpec) (k : String) :
    tagsGet (mergeSpecs initial specs).Tags k =
      orElseOpt (lastDefined k specs) (tagsGet initial.Tags k) := by
  simp only [mergeSpecs]
  rw [tags_foldl_mergeStep, cloneSpec_eq]

/-- Claim C7: a non-empty member init is appended to the accumulator,
preceded by a newline only when the accumulator is non-empty; an empty
member init changes nothing; hence the merged init is the newline-joined
concatenation of the original init and every non-empty member init in
listed order. -/
theorem c7_merge_init_concatenation (initial : InstanceSpec)
    (specs : List InstanceSpec) (acc i : String) :
    (mergeSpecs initial specs).Init =
      newlineJoin ((initial.Init :: specs.map (fun s => s.Init)).filter
        (fun s => s != ""))
    ∧ mergeInit acc "" = acc
    ∧ mergeInit acc i =
        (if i = "" then acc else if acc = "" then i else acc ++ "\n" ++ i) := by
  refine ⟨?_, by simp [mergeInit], ?_⟩
  · simp only [mergeSpecs, init_foldl_mergeStep]
    have hcl : (cloneSpec initial).Init = initial.Init := rfl
    rw [hcl, foldl_mergeInit_join]
  · by_cases hi : i = ""
    · simp [mergeInit, hi]
    · by_cases ha : acc = ""
      · simp [mergeInit, hi, ha]
      · simp [mergeInit, hi, ha]

/-- Claim C8: Prepare is fail-fast: a decode failure, a member resolution
failure, or a member Prepare error aborts the call at once with that error
unchanged together with the original input spec, whatever members follow the
failing one (no later member is invoked). -/
theorem c8_prepare_fail_fast (f : flavorCombo)
    (decode : RawMessage → Except String Spec) (props : RawMessage)
    (inst : InstanceSpec) (alloc : AllocationMethod)
    (pre post : List FlavorRef) (r : FlavorRef) (e : String) :
    (decode props = Except.error e →
      flavorCombo.Prepare f decode props inst alloc = some (inst, some e))
    ∧ (decode props = Except.ok { Flavors := pre ++ r :: post } →
      (∀ x ∈ pre, (memberOut f alloc inst x).isSome) →
      ∀ po, f.flavorPlugins r.Plugin = (po, some e) →
      flavorCombo.Prepare f decode props inst alloc = some (inst, some e))
    ∧ (decode props = Except.ok { Flavors := pre ++ r :: post } →
      (∀ x ∈ pre, (memberOut f alloc inst x).isSome) →
      ∀ p, f.flavorPlugins r.Plugin = (some p, none) →
      p.Prepare r.Properties (cloneSpec inst) alloc = Except.error e →
      flavorCombo.Prepare f decode props inst alloc = some (inst, some e)) := by
  refine ⟨?_, ?_, ?_⟩
  · intro hdec
    simp [flavorCombo.Prepare, hdec]
  · intro hdec hpre po hlk
    simp only [flavorCombo.Prepare, hdec]
    rw [prepareLoop_ok_front f alloc inst pre (r :: post) [] hpre]
    simp [prepareLoop, hlk]
  · intro hdec hpre p hlk hperr
    simp only [flavorCombo.Prepare, hdec]
    rw [prepareLoop_ok_front f alloc inst pre (r :: post) [] hpre]
    simp [prepareLoop, hlk, hperr]

/-- Concrete check of claim C8: a failing decode, a member b that fails to
resolve after a succeeding member a, and a member b whose Prepare errors,
each return the original spec with the error. -/
theorem c8_prepare_fail_fast_witness :
    flavorCombo.Prepare { flavorPlugins := lookupBMissing } (decodeFail "bad json")
      "payload" specA "alloc" = some (specA, some "bad json")
    ∧ flavorCombo.Prepare { flavorPlugins := lookupBMissing }
      (decodeTo { Flavors := [refA, refB, refC] }) "payload" specA "alloc" =
      some (specA, some "not found: b")
    ∧ flavorCombo.Prepare { flavorPlugins := lookupBPrepFail }
      (decodeTo { Flavors := [refA, refB, refC] }) "payload" specA "alloc" =
      some (specA, some "prep boom") := by
  refine ⟨?_, ?_, ?_⟩
  · exact (c8_prepare_fail_fast { flavorPlugins := lookupBMissing }
      (decodeFail "bad json") "payload" specA "alloc" [refA] [refC] refB
      "bad json").1 rfl
  · exact (c8_prepare_fail_fast { flavorPlugins := lookupBMissing }
      (decodeTo { Flavors := [refA, refB, refC] }) "payload" specA "alloc"
      [refA] [refC] refB "not found: b").2.1 rfl (by decide) none rfl
  · exact (c8_prepare_fail_fast { flavorPlugins := lookupBPrepFail }
      (decodeTo { Flavors := [refA, refB, refC] }) "payload" specA "alloc"
      [refA] [refC] refB "prep boom").2.2 rfl (by decide)
      (prepareFailPlugin "prep boom") rfl rfl

/-- Claim C9: a properties payload decoding to a composition with zero
members makes Prepare succeed, returning an instance spec equal field for
field to the input. -/
theorem c9_prepare_zero_members (f : flavorCombo)
    (decode : RawMessage → Except String Spec) (props : RawMessage)
    (inst : InstanceSpec) (alloc : AllocationMethod)
    (hdec : decode props = Except.ok { Flavors := [] }) :
    flavorCombo.Prepare f decode props inst alloc = some (inst, none) := by
  simp only [flavorCombo.Prepare, hdec]
  simp [prepareLoop, mergeSpecs, cloneSpec_eq]

/-- Concrete check of claim C9 at an empty composition. -/
theorem c9_prepare_zero_members_witness :
    flavorCombo.Prepare { flavorPlugins := lookupABC }
      (decodeTo { Flavors := [] }) "payload" specA "alloc" =
      some (specA, none) :=
  c9_prepare_zero_members { flavorPlugins := lookupABC }
    (decodeTo { Flavors := [] }) "payload" specA "alloc" rfl

/-- Counterexample to claim C10: a Healthy request whose Properties field is
absent but whose type resolves to no plugin IS handled by returning an error
value: the handler resolves the plugin before dereferencing Properties. -/
theorem c10_nil_properties_counterexample :
    Flavor.Healthy (PluginServer pluginA)
      { Typ := "x", Properties := none, Instance := descA } =
      some (Except.error ("no-plugin:" ++ "x")) := rfl

/-- Claim C10 as amended: the Healthy and Drain handlers resolve the plugin
first and return a no-plugin error, never touching Properties, when
resolution fails; when resolution succeeds they dereference Properties
unconditionally, so an absent Properties pointer faults the handler; the
Validate and Prepare handlers substitute an empty payload for an absent
Properties and proceed normally. -/
theorem c10_handlers_nil_properties (srv : Flavor) (hreq : HealthyRequest)
    (dreq : DrainRequest) (vreq : ValidateRequest) (preq : PrepareRequest) :
    (srv.getPlugin hreq.Typ = none →
      srv.Healthy hreq = some (Except.error ("no-plugin:" ++ hreq.Typ)))
    ∧ (∀ c, srv.getPlugin hreq.Typ = some c → hreq.Properties = none →
        srv.Healthy hreq = none)
    ∧ (srv.getPlugin dreq.Typ = none →
        srv.Drain dreq = some (Except.error ("no-plugin:" ++ dreq.Typ)))
    ∧ (∀ c, srv.getPlugin dreq.Typ = some c → dreq.Properties = none →
        srv.Drain dreq = none)
    ∧ (vreq.Properties = none →
        srv.Validate vreq = srv.Validate { vreq with Properties := some "" })
    ∧ (preq.Properties = none →
        srv.Prepare preq = srv.Prepare { preq with Properties := some "" }) := by
  refine ⟨?_, ?_, ?_, ?_, ?_, ?_⟩
  · intro h
    simp [Flavor.Healthy, h]
  · intro c hc hp
    simp [Flavor.Healthy, hc, hp]
  · intro h
    simp [Flavor.Drain, h]
  · intro c hc hp
    simp [Flavor.Drain, hc, hp]
  · intro hp
    simp [Flavor.Validate, hp]
  · intro hp
    simp [Flavor.Prepare, hp]

/-- Concrete check of amended claim C10: with a registered type and an absent
Properties pointer, Healthy and Drain fault while Validate behaves as if an
empty payload were supplied; with an unknown type, Drain returns the
no-plugin error. -/
theorem c10_handlers_nil_properties_witness :
    Flavor.Healthy (PluginServerWithTypes [("t1", pluginA)])
      { Typ := "t1", Properties := none, Instance := descA } = none
    ∧ Flavor.Drain (PluginServerWithTypes [("t1", pluginA)])
      { Typ := "t1", Properties := none, Instance := descA } = none
    ∧ Flavor.Validate (PluginServerWithTypes [("t1", pluginA)])
      { Typ := "t1", Properties := none, Allocation := "al" } =
      Flavor.Validate (PluginServerWithTypes [("t1", pluginA)])
      { Typ := "t1", Properties := some "", Allocation := "al" }
    ∧ Flavor.Drain (PluginServer pluginA)
      { Typ := "zzz", Properties := none, Instance := descA } =
      some (Except.error ("no-plugin:" ++ "zzz")) := by
  refine ⟨?_, ?_, ?_, ?_⟩
  · exact (c10_handlers_nil_properties (PluginServerWithTypes [("t1", pluginA)])
      { Typ := "t1", Properties := none, Instance := descA }
      { Typ := "t1", Properties := none, Instance := descA }
      { Typ := "t1", Properties := none, Allocation := "al" }
      { Typ := "t1", Properties := none, Spec := specA, Allocation := "al" }).2.1
      pluginA rfl rfl
  · exact (c10_handlers_nil_properties (PluginServerWithTypes [("t1", pluginA)])
      { Typ := "t1", Properties := none, Instance := descA }
      { Typ := "t1", Properties := none, Instance := descA }
      { Typ := "t1", Properties := none, Allocation := "al" }
      { Typ := "t1", Properties := none, Spec := specA, Allocation := "al" }).2.2.2.1
      pluginA rfl rfl
  · exact (c10_handlers_nil_properties (PluginServerWithTypes [("t1", pluginA)])
      { Typ := "t1", Properties := none, Instance := descA }
      { Typ := "t1", Properties := none, Instance := descA }
      { Typ := "t1", Properties := none, Allocation := "al" }
      { Typ := "t1", Properties := none, Spec := specA, Allocation := "al" }).2.2.2.2.1
      rfl
  · exact (c10_handlers_nil_properties (PluginServer pluginA)
      { Typ := "t1", Properties := none, Instance := descA }
      { Typ := "zzz", Properties := none, Instance := descA }
      { Typ := "t1", Properties := none, Allocation := "al" }
      { Typ := "t1", Properties := none, Spec := specA, Allocation := "al" }).2.2.1
      rfl

end Infrakit
